import Mathlib

/-!
# cc-sidecar: verification of the session-completion detector and transcript parser

A shallow embedding of `internal/session/transcript.go` and
`internal/session/tracker.go` from the cc-sidecar repository, together with
theorems settling the specification's claims about them.

Modelling conventions:

* Go `time.Time` instants are `Int` nanoseconds, with `0` playing the role of
  the zero `time.Time` (`IsZero`).  Go `time.Duration` values are `Int`
  nanoseconds; `Duration.Milliseconds()` is truncated division by `1000000`
  toward zero, which is Lean's `Int.tdiv`.
* `time.Parse(time.RFC3339Nano, s)` is abstracted: a transcript line carries
  the *outcome* of that parse as an `Option Int` (`none` = the timestamp field
  is empty or does not parse, `some t` = it parses to instant `t`).
* A JSONL line is either `malformed` (empty, or `json.Unmarshal` fails — the
  Go loop `continue`s) or a record of the fields the Go structs extract.
  `message` is `none` when the `message` field is absent or not an object
  (the second unmarshal in `extractFileChanges` fails), mirroring that the
  top-level unmarshal into `json.RawMessage` succeeds regardless.
* Go's `map[string]bool` used as a set of file paths is modelled as a
  duplicate-collapsing list in first-insertion order; the *unspecified
  iteration order* of a Go map when the final slice is built is an explicit
  parameter `ord` of `parseTranscript`, constrained to be a permutation.
* Go strings in the filename logic are modelled as Lean strings with
  character positions; for the ASCII content these functions accept this
  coincides with Go's byte indexing, and `isUUIDLike` rejects any string
  containing a non-ASCII character at a checked position.
-/

/-- Output of the parser, mirroring Go struct `CompletedSession`. -/
structure CompletedSession where
  SessionID : String
  TranscriptPath : String
  FilesChanged : List String
  WorkingDir : String
  DurationMs : Int
  ExitCode : Int
deriving DecidableEq, Repr

/-- Go struct `toolInput`: the result of unmarshalling a `tool_use` block's
`input`; `file_path` is `""` when the field is absent. -/
structure ToolUseInput where
  file_path : String
deriving DecidableEq, Repr

/-- Go struct `contentBlock`. `input` is `none` when `json.Unmarshal` of the
raw input into `toolInput` fails. -/
structure ContentBlock where
  type : String
  name : String
  input : Option ToolUseInput
deriving DecidableEq, Repr

/-- Go struct `messageContent`. `content` is `none` when unmarshalling the raw
content into `[]contentBlock` fails (e.g. the content is a plain string). -/
structure MessageContent where
  role : String
  content : Option (List ContentBlock)
deriving DecidableEq, Repr

/-- Go struct `jsonlLine`, restricted to the fields `parseTranscript` reads.
`timestamp` is the abstracted outcome of `time.Parse(time.RFC3339Nano, ·)`
on the raw timestamp string (see module docstring); `message` is `none` when
the `message` field is absent or not an object. -/
structure JsonlLine where
  type : String
  sessionId : String
  timestamp : Option Int
  cwd : String
  message : Option MessageContent
deriving DecidableEq, Repr

/-- One line of a JSONL transcript as seen by the scanner loop:
`malformed` covers empty lines and lines `json.Unmarshal` rejects (both are
skipped with `continue`). -/
inductive Line where
  | malformed
  | entry (e : JsonlLine)
deriving DecidableEq, Repr

/-- A transcript file as the parser observes it: whether `os.Open` succeeds,
the lines the `bufio.Scanner` delivers before stopping, and whether
`scanner.Err()` reports an error afterwards (which the Go code only logs). -/
structure TranscriptFile where
  path : String
  openOk : Bool
  lines : List Line
  scanErr : Bool
deriving Repr

/-- Adding a path to the `filesChanged` set (`files[input.FilePath] = true` on
a Go `map[string]bool`): a no-op when already present, else recorded. -/
def insertFile (files : List String) (f : String) : List String :=
  if f ∈ files then files else files ++ [f]

/-- Effect of one content block on the `filesChanged` set, mirroring the loop
body of Go `extractFileChanges`. -/
def blockFiles (files : List String) (b : ContentBlock) : List String :=
  if b.type ≠ "tool_use" then files
  else if b.name ≠ "Write" ∧ b.name ≠ "Edit" then files
  else
    match b.input with
    | none => files
    | some inp => if inp.file_path ≠ "" then insertFile files inp.file_path else files

/-- Go `extractFileChanges`: re-examines the line for a `message` object with
`role == "assistant"` whose content unmarshals into blocks, and folds the
Write/Edit `tool_use` file paths into the set. -/
def extractFileChanges (e : JsonlLine) (files : List String) : List String :=
  match e.message with
  | none => files
  | some m =>
    if m.role ≠ "assistant" then files
    else
      match m.content with
      | none => files
      | some blocks => blocks.foldl blockFiles files

/-- Accumulator of the scanner loop in Go `parseTranscript`. -/
structure ScanState where
  sessionID : String
  workingDir : String
  filesChanged : List String
  firstTS : Int
  lastTS : Int
  hasAssistantMsg : Bool
deriving DecidableEq, Repr

/-- Initial accumulator: Go zero values (`firstTS`/`lastTS` are the zero
instant, modelled as `0`). -/
def initScan : ScanState :=
  { sessionID := "", workingDir := "", filesChanged := [], firstTS := 0,
    lastTS := 0, hasAssistantMsg := false }

/-- Body of the scanner loop in Go `parseTranscript` for one line. -/
def scanLine (st : ScanState) (l : Line) : ScanState :=
  match l with
  | .malformed => st
  | .entry e =>
    let st1 := if e.sessionId ≠ "" ∧ st.sessionID = "" then
        { st with sessionID := e.sessionId } else st
    let st2 := if e.cwd ≠ "" ∧ st1.workingDir = "" then
        { st1 with workingDir := e.cwd } else st1
    let st3 :=
      match e.timestamp with
      | some ts =>
          { st2 with firstTS := if st2.firstTS = 0 then ts else st2.firstTS,
                     lastTS := ts }
      | none => st2
    let st4 := if e.type = "assistant" then { st3 with hasAssistantMsg := true } else st3
    { st4 with filesChanged := extractFileChanges e st4.filesChanged }

/-- Go `filepath.Base` on a slash-separated path (unix rules): empty path
gives `"."`; trailing separators are stripped; a path of only separators
gives `"/"`; otherwise everything after the last separator. -/
def filepathBase (path : String) : String :=
  if path = "" then "." else
  let stripped := (path.toList.reverse.dropWhile (fun c => c = '/')).reverse
  if stripped = [] then "/"
  else String.mk (stripped.reverse.takeWhile (fun c => ¬ c = '/')).reverse

/-- Go `strings.TrimSuffix`: drop `suffix` from the end of `s` when present,
else return `s` unchanged. -/
def trimSuffix (s suffix : String) : String :=
  if suffix.toList.isSuffixOf s.toList then
    String.mk (s.toList.take (s.length - suffix.length))
  else s

/-- The hex-digit test of Go `isUUIDLike`'s else-branch. -/
def isHexChar (c : Char) : Bool :=
  (decide ('0' ≤ c) && decide (c ≤ '9')) ||
  (decide ('a' ≤ c) && decide (c ≤ 'f')) ||
  (decide ('A' ≤ c) && decide (c ≤ 'F'))

/-- Per-position check of Go `isUUIDLike`: hyphen at offsets 8, 13, 18, 23,
hex digit elsewhere. -/
def uuidPosOk (i : Nat) (c : Char) : Bool :=
  if i = 8 ∨ i = 13 ∨ i = 18 ∨ i = 23 then c = '-' else isHexChar c

/-- The indexed loop of Go `isUUIDLike`, scanning from position `i`. -/
def uuidScan : Nat → List Char → Bool
  | _, [] => true
  | i, c :: cs => uuidPosOk i c && uuidScan (i + 1) cs

/-- Go `isUUIDLike`. -/
def isUUIDLike (s : String) : Bool :=
  s.length = 36 && uuidScan 0 s.toList

/-- Go `extractSessionIDFromPath`: strip `.jsonl` from the base name and
return the trailing 36 characters when UUID-shaped, else the whole stem. -/
def extractSessionIDFromPath (path : String) : String :=
  let base := trimSuffix (filepathBase path) ".jsonl"
  if 36 ≤ base.length then
    let candidate := String.mk (base.toList.drop (base.length - 36))
    if isUUIDLike candidate then candidate else base
  else base

/-- Go `parseTranscript`.  `ord` is the unspecified iteration order of the Go
`filesChanged` map when the result slice is built: it rearranges the set's
insertion-order listing, and every run of the program instantiates it with
some permutation. -/
def parseTranscript (ord : List String → List String) (f : TranscriptFile) :
    Option CompletedSession :=
  if ¬ f.openOk then none else
  let st := f.lines.foldl scanLine initScan
  let sid := if st.sessionID = "" then extractSessionIDFromPath f.path else st.sessionID
  if sid = "" then none else
  some { SessionID := sid
         TranscriptPath := f.path
         FilesChanged := ord st.filesChanged
         WorkingDir := st.workingDir
         DurationMs :=
           if st.firstTS ≠ 0 ∧ st.lastTS ≠ 0 then
             Int.tdiv (st.lastTS - st.firstTS) 1000000
           else 0
         ExitCode := if st.hasAssistantMsg then 0 else 1 }

-- Sanity checks against the Go test suite (TestParseTranscript_Basic shape).
example : isUUIDLike "cfa3335c-ea38-4cf8-a1f2-9e3cf9789708" = true := by decide
example : isUUIDLike "not-a-uuid" = false := by decide
example : isUUIDLike "cfa3335c_ea38_4cf8_a1f2_9e3cf9789708" = false := by decide
example : extractSessionIDFromPath "/tmp/short.jsonl" = "short" := by decide
example :
    extractSessionIDFromPath "/tmp/abcdef01-2345-6789-abcd-ef0123456789.jsonl" =
      "abcdef01-2345-6789-abcd-ef0123456789" := by decide

/-! ## Session tracker (`internal/session/tracker.go`) -/

/-- Go struct `trackedFile`: bookkeeping for one transcript path.  Times are
`Int` nanoseconds with `0` as the zero `time.Time` (`reportedAt.IsZero()`
corresponds to `reportedAt = 0`). -/
structure TrackedFile where
  path : String
  lastWrite : Int
  reported : Bool
  reportedAt : Int
deriving DecidableEq, Repr

/-- Go constant `cleanupGrace = 5 * time.Minute`, in nanoseconds. -/
def cleanupGrace : Int := 5 * 60 * 1000000000

/-- Go `Tracker.Touch` for one path `p`: update `lastWrite` and clear
`reported` when the path is tracked, else create a fresh entry (zero-valued
`reported`/`reportedAt`). -/
def touchFile (p : String) (now : Int) : Option TrackedFile → TrackedFile
  | some tf => { tf with lastWrite := now, reported := false }
  | none => { path := p, lastWrite := now, reported := false, reportedAt := 0 }

/-- Body of the sweep loop in Go `Tracker.check` for one tracked entry.
`alive` is the Liveness Oracle's answer `t.processCheck path` at this sweep.
Returns the entry's fate (`none` = deleted from the map) and whether the path
was appended to `readyPaths` (a completion was emitted for it). -/
def checkFile (idleThreshold : Int) (alive : Bool) (now : Int) (tf : TrackedFile) :
    Option TrackedFile × Bool :=
  if tf.reported ∧ tf.reportedAt ≠ 0 ∧ cleanupGrace ≤ now - tf.reportedAt then
    (none, false)
  else if tf.reported then
    (some tf, false)
  else if now - tf.lastWrite < idleThreshold then
    (some tf, false)
  else if alive then
    (some tf, false)
  else
    (some { tf with reported := true, reportedAt := now }, true)

/-- The map scan of Go `Tracker.check`: apply `checkFile` to every entry of
the tracked-file map (modelled as an association list), collecting the
surviving entries and the `readyPaths`. -/
def checkMap (idleThreshold : Int) (oracle : String → Bool) (now : Int) :
    List (String × TrackedFile) → List (String × TrackedFile) × List String
  | [] => ([], [])
  | (p, tf) :: rest =>
    let acc := checkMap idleThreshold oracle now rest
    match checkFile idleThreshold (oracle p) now tf with
    | (none, _) => acc
    | (some tf', emitted) =>
      ((p, tf') :: acc.1, if emitted then p :: acc.2 else acc.2)

/-- All of Go `Tracker.check`: scan the map under the lock, then — outside
the lock — parse each ready path and invoke the callback on every non-nil
result.  `parse` abstracts `parseTranscript path`; the second component is
the list of completions handed to `onComplete`. -/
def trackerCheck (idleThreshold : Int) (oracle : String → Bool)
    (parse : String → Option CompletedSession) (now : Int)
    (files : List (String × TrackedFile)) :
    List (String × TrackedFile) × List CompletedSession :=
  let swept := checkMap idleThreshold oracle now files
  (swept.1, swept.2.filterMap parse)

/-- Go `Tracker.Touch` on the whole map. -/
def touchMap (p : String) (now : Int) (files : List (String × TrackedFile)) :
    List (String × TrackedFile) :=
  if (files.map Prod.fst).contains p then
    files.map fun q => if q.1 = p then (q.1, touchFile p now (some q.2)) else q
  else files ++ [(p, touchFile p now none)]

/-! ### Per-path event traces

`Tracker.check` treats tracked entries independently (the loop body reads and
writes only the entry at hand), so the temporal claims about a single path are
stated over a per-path trace: a sequence of `Touch(path)` calls and sweeps,
each carrying the wall-clock time and, for sweeps, the Liveness Oracle's
answer for that path at that instant. -/

/-- One event observed by a fixed path: a `Touch`, or a sweep of
`Tracker.check` during which the oracle answered `alive`. -/
inductive TEvent where
  | touch (now : Int)
  | sweep (now : Int) (alive : Bool)
deriving DecidableEq, Repr

/-- Effect of one event on the path's entry (`none` = not tracked), together
with whether this event emitted a completion for the path. -/
def stepFile (idleThreshold : Int) (p : String) :
    Option TrackedFile → TEvent → Option TrackedFile × Bool
  | s, .touch now => (some (touchFile p now s), false)
  | none, .sweep _ _ => (none, false)
  | some tf, .sweep now alive => checkFile idleThreshold alive now tf

/-- Run a trace of events, counting the completions emitted for the path. -/
def runFile (idleThreshold : Int) (p : String) :
    Option TrackedFile → List TEvent → Option TrackedFile × Nat
  | s, [] => (s, 0)
  | s, e :: es =>
    let step := stepFile idleThreshold p s e
    let rest := runFile idleThreshold p step.1 es
    (rest.1, (if step.2 then 1 else 0) + rest.2)

/-- Whether an event is a sweep (no intervening `Touch` in a sweep-only
trace). -/
def isSweep : TEvent → Bool
  | .touch _ => false
  | .sweep _ _ => true

/-- Whether a sweep event satisfies, for an entry last written at `lw`, both
completion conditions: idle time at least the threshold and oracle false. -/
def fires (idleThreshold lw : Int) : TEvent → Bool
  | .touch _ => false
  | .sweep now alive => !alive && decide (idleThreshold ≤ now - lw)

/-- Whether an event's oracle answer (if any) is `true` (claude running). -/
def oracleTrue : TEvent → Bool
  | .touch _ => true
  | .sweep _ alive => alive

/-! ### Start/Stop (`Tracker.Start`, `Tracker.Stop`)

`done` is an unbuffered Go channel used purely as a close-to-signal broadcast.
Go's runtime faults (`panic: close of closed channel`) when a closed channel
is closed again, and a receive from a closed channel is immediately ready. -/

/-- The `done` channel's abstract state. -/
structure DoneChan where
  closed : Bool
deriving DecidableEq, Repr

/-- Go `close(ch)`: faults when the channel is already closed. -/
def goClose (c : DoneChan) : Except String DoneChan :=
  if c.closed then Except.error "close of closed channel"
  else Except.ok { closed := true }

/-- Go `Tracker.Stop`: `close(t.done)`. -/
def trackerStop (c : DoneChan) : Except String DoneChan := goClose c

/-- The two cases of the `select` in `Tracker.Start`'s loop. -/
inductive SelectCase where
  | tick
  | done
deriving DecidableEq, Repr

/-- Whether the `done` case of the select is ready: a receive from a closed
channel never blocks. -/
def doneReady (c : DoneChan) : Bool := c.closed

/-- One iteration of the loop in Go `Tracker.Start`, given which ready select
case was taken: the ticker case runs `t.check()` and loops, the done case
returns.  The result is `true` exactly when the loop exits. -/
def startIterationExits (chosen : SelectCase) : Bool :=
  match chosen with
  | .tick => false
  | .done => true

/-- Run the `Start` loop along a schedule of select choices; `true` when the
loop has returned by the end of the schedule. -/
def runStart : List SelectCase → Bool
  | [] => false
  | k :: ks => if startIterationExits k then true else runStart ks

-- Sanity checks mirroring the tracker tests: a touched entry completes once
-- idle with the oracle false, and only once.
example :
    (runFile 50 "p" none
      [TEvent.touch 0, TEvent.sweep 20 false, TEvent.sweep 60 false,
       TEvent.sweep 80 false]).2 = 1 := by decide
example :
    (runFile 50 "p" none
      [TEvent.touch 0, TEvent.sweep 60 true, TEvent.sweep 120 true]).2 = 0 := by decide

/-! ## Observations of a transcript's line list

Each function below reads off, from the line list, the data that one of the
scanner loop's accumulator fields is built from; the `scanAll_*` lemmas prove
the correspondence. -/

/-- The parsed timestamps of the lines, in file order. -/
def tsList (lines : List Line) : List Int :=
  lines.filterMap fun l =>
    match l with
    | .malformed => none
    | .entry e => e.timestamp

/-- The non-empty `sessionId` fields of the lines, in file order. -/
def idsList (lines : List Line) : List String :=
  lines.filterMap fun l =>
    match l with
    | .malformed => none
    | .entry e => if e.sessionId ≠ "" then some e.sessionId else none

/-- The non-empty `cwd` fields of the lines, in file order. -/
def cwdsList (lines : List Line) : List String :=
  lines.filterMap fun l =>
    match l with
    | .malformed => none
    | .entry e => if e.cwd ≠ "" then some e.cwd else none

/-- Whether a line is tagged as an assistant-authored message: its top-level
`type` field equals `"assistant"` (the tag `parseTranscript` consults for the
exit-code heuristic). -/
def taggedAssistant : Line → Bool
  | .malformed => false
  | .entry e => e.type = "assistant"

/-- The file path a single content block contributes to `filesChanged`, if
any: a `tool_use` block named `Write` or `Edit` whose input unmarshals and
carries a non-empty `file_path`. -/
def blockContrib (b : ContentBlock) : Option String :=
  if b.type ≠ "tool_use" then none
  else if b.name ≠ "Write" ∧ b.name ≠ "Edit" then none
  else
    match b.input with
    | none => none
    | some inp => if inp.file_path ≠ "" then some inp.file_path else none

/-- The file paths a line contributes to `filesChanged`: nothing unless the
line carries a `message` object with `role = "assistant"` whose content
unmarshals into blocks. -/
def lineContrib : Line → List String
  | .malformed => []
  | .entry e =>
    match e.message with
    | none => []
    | some m =>
      if m.role ≠ "assistant" then []
      else
        match m.content with
        | none => []
        | some blocks => blocks.filterMap blockContrib

/-- The first non-zero instant of a list, or `0`: what the `firstTS`
accumulator (guarded by `firstTS.IsZero()`) converges to. -/
def firstNZ (l : List Int) : Int := (l.filter fun t => t ≠ 0).headD 0

/-- The whole scanner loop of Go `parseTranscript`. -/
abbrev scanAll (lines : List Line) : ScanState := lines.foldl scanLine initScan

theorem scanLine_malformed (st : ScanState) : scanLine st .malformed = st := rfl

theorem scanLine_entry_lastTS (st : ScanState) (e : JsonlLine) :
    (scanLine st (.entry e)).lastTS = e.timestamp.getD st.lastTS := by
  simp only [scanLine]
  cases e.timestamp <;> split_ifs <;> rfl

theorem scanLine_entry_firstTS (st : ScanState) (e : JsonlLine) :
    (scanLine st (.entry e)).firstTS =
      (match e.timestamp with
       | some ts => if st.firstTS = 0 then ts else st.firstTS
       | none => st.firstTS) := by
  simp only [scanLine]
  cases e.timestamp <;> split_ifs <;> rfl

theorem scanLine_entry_sessionID (st : ScanState) (e : JsonlLine) :
    (scanLine st (.entry e)).sessionID =
      if e.sessionId ≠ "" ∧ st.sessionID = "" then e.sessionId else st.sessionID := by
  simp only [scanLine]
  cases e.timestamp <;> split_ifs <;> rfl

theorem scanLine_entry_workingDir (st : ScanState) (e : JsonlLine) :
    (scanLine st (.entry e)).workingDir =
      if e.cwd ≠ "" ∧ st.workingDir = "" then e.cwd else st.workingDir := by
  simp only [scanLine]
  cases e.timestamp <;> split_ifs <;> rfl

theorem scanLine_entry_hasAssistantMsg (st : ScanState) (e : JsonlLine) :
    (scanLine st (.entry e)).hasAssistantMsg =
      (st.hasAssistantMsg || decide (e.type = "assistant")) := by
  simp only [scanLine]
  cases e.timestamp <;> split_ifs <;> simp_all

theorem scanLine_entry_filesChanged (st : ScanState) (e : JsonlLine) :
    (scanLine st (.entry e)).filesChanged = extractFileChanges e st.filesChanged := by
  simp only [scanLine]
  cases e.timestamp <;> split_ifs <;> rfl

theorem tsList_cons_malformed (ls : List Line) :
    tsList (.malformed :: ls) = tsList ls := by
  simp [tsList, List.filterMap_cons]

theorem tsList_cons_entry (e : JsonlLine) (ls : List Line) :
    tsList (.entry e :: ls) =
      (match e.timestamp with
       | some ts => ts :: tsList ls
       | none => tsList ls) := by
  cases h : e.timestamp <;> simp [tsList, List.filterMap_cons, h]

theorem firstNZ_cons (t : Int) (l : List Int) :
    firstNZ (t :: l) = if t = 0 then firstNZ l else t := by
  by_cases h : t = 0 <;> simp [firstNZ, List.filter_cons, h]

theorem scanAll_go_lastTS (lines : List Line) (st : ScanState) :
    (lines.foldl scanLine st).lastTS = (tsList lines).getLastD st.lastTS := by
  induction lines generalizing st with
  | nil => rfl
  | cons l ls ih =>
    cases l with
    | malformed =>
      rw [List.foldl_cons, scanLine_malformed, ih, tsList_cons_malformed]
    | entry e =>
      rw [List.foldl_cons, ih, tsList_cons_entry]
      cases h : e.timestamp with
      | none => simp [scanLine_entry_lastTS, h]
      | some ts =>
        simp only [scanLine_entry_lastTS, h, Option.getD_some]
        rw [List.getLastD_cons]

theorem scanAll_go_firstTS (lines : List Line) (st : ScanState) :
    (lines.foldl scanLine st).firstTS =
      if st.firstTS = 0 then firstNZ (tsList lines) else st.firstTS := by
  induction lines generalizing st with
  | nil => by_cases h : st.firstTS = 0 <;> simp [tsList, firstNZ, h]
  | cons l ls ih =>
    cases l with
    | malformed =>
      rw [List.foldl_cons, scanLine_malformed, ih, tsList_cons_malformed]
    | entry e =>
      rw [List.foldl_cons, ih, tsList_cons_entry, scanLine_entry_firstTS]
      cases h : e.timestamp with
      | none => simp [h]
      | some ts =>
        simp only [h, firstNZ_cons]
        by_cases h0 : st.firstTS = 0 <;> by_cases ht : ts = 0 <;> simp [h0, ht]

theorem idsList_cons (l : Line) (ls : List Line) :
    idsList (l :: ls) =
      (match l with
       | .malformed => idsList ls
       | .entry e => if e.sessionId ≠ "" then e.sessionId :: idsList ls else idsList ls) := by
  cases l with
  | malformed => simp [idsList, List.filterMap_cons]
  | entry e =>
    by_cases h : e.sessionId = "" <;> simp [idsList, List.filterMap_cons, h]

theorem cwdsList_cons (l : Line) (ls : List Line) :
    cwdsList (l :: ls) =
      (match l with
       | .malformed => cwdsList ls
       | .entry e => if e.cwd ≠ "" then e.cwd :: cwdsList ls else cwdsList ls) := by
  cases l with
  | malformed => simp [cwdsList, List.filterMap_cons]
  | entry e =>
    by_cases h : e.cwd = "" <;> simp [cwdsList, List.filterMap_cons, h]

theorem scanAll_go_sessionID (lines : List Line) (st : ScanState) :
    (lines.foldl scanLine st).sessionID =
      if st.sessionID = "" then (idsList lines).headD "" else st.sessionID := by
  induction lines generalizing st with
  | nil => by_cases h : st.sessionID = "" <;> simp [idsList, h]
  | cons l ls ih =>
    cases l with
    | malformed =>
      rw [List.foldl_cons, scanLine_malformed, ih, idsList_cons]
    | entry e =>
      rw [List.foldl_cons, ih, idsList_cons, scanLine_entry_sessionID]
      by_cases h0 : st.sessionID = "" <;> by_cases he : e.sessionId = "" <;>
        simp [h0, he]

theorem scanAll_go_workingDir (lines : List Line) (st : ScanState) :
    (lines.foldl scanLine st).workingDir =
      if st.workingDir = "" then (cwdsList lines).headD "" else st.workingDir := by
  induction lines generalizing st with
  | nil => by_cases h : st.workingDir = "" <;> simp [cwdsList, h]
  | cons l ls ih =>
    cases l with
    | malformed =>
      rw [List.foldl_cons, scanLine_malformed, ih, cwdsList_cons]
    | entry e =>
      rw [List.foldl_cons, ih, cwdsList_cons, scanLine_entry_workingDir]
      by_cases h0 : st.workingDir = "" <;> by_cases he : e.cwd = "" <;>
        simp [h0, he]

theorem scanAll_go_hasAssistantMsg (lines : List Line) (st : ScanState) :
    (lines.foldl scanLine st).hasAssistantMsg =
      (st.hasAssistantMsg || lines.any taggedAssistant) := by
  induction lines generalizing st with
  | nil => simp
  | cons l ls ih =>
    cases l with
    | malformed =>
      rw [List.foldl_cons, scanLine_malformed, ih]
      simp [taggedAssistant]
    | entry e =>
      rw [List.foldl_cons, ih, scanLine_entry_hasAssistantMsg]
      simp [taggedAssistant, Bool.or_assoc]

theorem insertFile_mem (x f : String) (files : List String) :
    x ∈ insertFile files f ↔ x ∈ files ∨ x = f := by
  by_cases h : f ∈ files
  · simp only [insertFile, if_pos h]
    constructor
    · exact Or.inl
    · rintro (hx | rfl)
      · exact hx
      · exact h
  · simp [insertFile, if_neg h]

theorem blockFiles_mem (x : String) (files : List String) (b : ContentBlock) :
    x ∈ blockFiles files b ↔ x ∈ files ∨ blockContrib b = some x := by
  rcases b with ⟨bt, bn, bi⟩
  unfold blockFiles blockContrib
  cases bi with
  | none => split_ifs <;> simp
  | some inp =>
    by_cases hfp : inp.file_path = "" <;> split_ifs <;>
      simp [insertFile_mem, hfp, eq_comm]

theorem foldl_blockFiles_mem (x : String) (blocks : List ContentBlock)
    (files : List String) :
    x ∈ blocks.foldl blockFiles files ↔
      x ∈ files ∨ ∃ b ∈ blocks, blockContrib b = some x := by
  induction blocks generalizing files with
  | nil => simp
  | cons b bs ih =>
    rw [List.foldl_cons, ih, blockFiles_mem]
    simp [or_assoc]

theorem extractFileChanges_mem (x : String) (e : JsonlLine) (files : List String) :
    x ∈ extractFileChanges e files ↔ x ∈ files ∨ x ∈ lineContrib (.entry e) := by
  unfold extractFileChanges lineContrib
  cases hm : e.message with
  | none => simp [hm]
  | some m =>
    simp only [hm]
    by_cases hrole : m.role = "assistant"
    · cases hc : m.content with
      | none => simp [hrole, hc]
      | some blocks => simp [hrole, hc, foldl_blockFiles_mem, List.mem_filterMap]
    · simp [hrole]

theorem scanLine_mem_filesChanged (x : String) (st : ScanState) (l : Line) :
    x ∈ (scanLine st l).filesChanged ↔ x ∈ st.filesChanged ∨ x ∈ lineContrib l := by
  cases l with
  | malformed => simp [scanLine_malformed, lineContrib]
  | entry e => rw [scanLine_entry_filesChanged, extractFileChanges_mem]

theorem scanAll_go_mem_filesChanged (x : String) (lines : List Line) (st : ScanState) :
    x ∈ (lines.foldl scanLine st).filesChanged ↔
      x ∈ st.filesChanged ∨ ∃ l ∈ lines, x ∈ lineContrib l := by
  induction lines generalizing st with
  | nil => simp
  | cons l ls ih =>
    rw [List.foldl_cons, ih, scanLine_mem_filesChanged]
    simp [or_assoc]

theorem scanAll_lastTS (lines : List Line) :
    (scanAll lines).lastTS = (tsList lines).getLastD 0 :=
  scanAll_go_lastTS lines initScan

theorem scanAll_firstTS (lines : List Line) :
    (scanAll lines).firstTS = firstNZ (tsList lines) := by
  simpa [initScan] using scanAll_go_firstTS lines initScan

theorem scanAll_sessionID (lines : List Line) :
    (scanAll lines).sessionID = (idsList lines).headD "" := by
  simpa [initScan] using scanAll_go_sessionID lines initScan

theorem scanAll_workingDir (lines : List Line) :
    (scanAll lines).workingDir = (cwdsList lines).headD "" := by
  simpa [initScan] using scanAll_go_workingDir lines initScan

theorem scanAll_hasAssistantMsg (lines : List Line) :
    (scanAll lines).hasAssistantMsg = lines.any taggedAssistant := by
  simpa [initScan] using scanAll_go_hasAssistantMsg lines initScan

theorem scanAll_mem_filesChanged (x : String) (lines : List Line) :
    x ∈ (scanAll lines).filesChanged ↔ ∃ l ∈ lines, x ∈ lineContrib l := by
  simpa [initScan] using scanAll_go_mem_filesChanged x lines initScan


theorem idsList_mem_ne_empty (lines : List Line) :
    ∀ s ∈ idsList lines, s ≠ "" := by
  intro s hs
  simp only [idsList, List.mem_filterMap] at hs
  obtain ⟨l, _, h⟩ := hs
  cases l with
  | malformed => simp at h
  | entry e =>
    by_cases he : e.sessionId = ""
    · simp [he] at h
    · simp only [ne_eq, he, not_false_eq_true, if_true, Option.some_inj] at h
      subst h
      exact he

theorem idsList_headD_empty_iff (lines : List Line) :
    (idsList lines).headD "" = "" ↔ idsList lines = [] := by
  cases h : idsList lines with
  | nil => simp
  | cons a l =>
    simp only [List.headD_cons]
    constructor
    · intro ha
      exact absurd ha (idsList_mem_ne_empty lines a (h ▸ List.mem_cons_self a l))
    · intro hc
      exact absurd hc (by simp)

theorem parseTranscript_false (ord : List String → List String)
    (p : String) (ls : List Line) (se : Bool) :
    parseTranscript ord ⟨p, false, ls, se⟩ = none := rfl

theorem parseTranscript_true_eq (ord : List String → List String)
    (p : String) (ls : List Line) (se : Bool) :
    parseTranscript ord ⟨p, true, ls, se⟩ =
      (if (if (scanAll ls).sessionID = "" then extractSessionIDFromPath p
           else (scanAll ls).sessionID) = "" then none
       else
         some { SessionID :=
                  if (scanAll ls).sessionID = "" then extractSessionIDFromPath p
                  else (scanAll ls).sessionID
                TranscriptPath := p
                FilesChanged := ord (scanAll ls).filesChanged
                WorkingDir := (scanAll ls).workingDir
                DurationMs :=
                  if (scanAll ls).firstTS ≠ 0 ∧ (scanAll ls).lastTS ≠ 0 then
                    Int.tdiv ((scanAll ls).lastTS - (scanAll ls).firstTS) 1000000
                  else 0
                ExitCode := if (scanAll ls).hasAssistantMsg then 0 else 1 }) := rfl

theorem parseTranscript_some_elim (ord : List String → List String)
    (f : TranscriptFile) (cs : CompletedSession)
    (h : parseTranscript ord f = some cs) :
    f.openOk = true ∧
    cs.TranscriptPath = f.path ∧
    cs.SessionID =
      (if (scanAll f.lines).sessionID = "" then extractSessionIDFromPath f.path
       else (scanAll f.lines).sessionID) ∧
    cs.SessionID ≠ "" ∧
    cs.FilesChanged = ord (scanAll f.lines).filesChanged ∧
    cs.WorkingDir = (scanAll f.lines).workingDir ∧
    cs.DurationMs =
      (if (scanAll f.lines).firstTS ≠ 0 ∧ (scanAll f.lines).lastTS ≠ 0 then
         Int.tdiv ((scanAll f.lines).lastTS - (scanAll f.lines).firstTS) 1000000
       else 0) ∧
    cs.ExitCode = (if (scanAll f.lines).hasAssistantMsg then 0 else 1) := by
  obtain ⟨p, ob, ls, se⟩ := f
  cases ob with
  | false =>
    rw [parseTranscript_false] at h
    exact absurd h (by simp)
  | true =>
    rw [parseTranscript_true_eq] at h
    by_cases hA : (scanAll ls).sessionID = ""
    · rw [if_pos hA] at h
      by_cases hz : extractSessionIDFromPath p = ""
      · rw [if_pos hz] at h
        exact absurd h (by simp)
      · rw [if_neg hz] at h
        rw [Option.some_inj] at h
        subst h
        refine ⟨rfl, rfl, ?_, ?_, rfl, rfl, rfl, rfl⟩
        · rw [if_pos hA]
        · exact hz
    · rw [if_neg hA] at h
      by_cases hz : (scanAll ls).sessionID = ""
      · exact absurd hz hA
      · rw [if_neg hz] at h
        rw [Option.some_inj] at h
        subst h
        refine ⟨rfl, rfl, ?_, ?_, rfl, rfl, rfl, rfl⟩
        · rw [if_neg hA]
        · exact hz

theorem parseTranscript_none_iff (ord : List String → List String)
    (f : TranscriptFile) :
    parseTranscript ord f = none ↔
      f.openOk = false ∨
        (idsList f.lines = [] ∧ extractSessionIDFromPath f.path = "") := by
  obtain ⟨p, ob, ls, se⟩ := f
  have hsid : (scanAll ls).sessionID = (idsList ls).headD "" := scanAll_sessionID ls
  cases ob with
  | false =>
    rw [parseTranscript_false]
    simp
  | true =>
    rw [parseTranscript_true_eq]
    constructor
    · intro h
      by_cases hA : (scanAll ls).sessionID = ""
      · rw [if_pos hA] at h
        by_cases hz : extractSessionIDFromPath p = ""
        · right
          refine ⟨?_, hz⟩
          rw [hsid] at hA
          exact (idsList_headD_empty_iff ls).mp hA
        · rw [if_neg hz] at h
          exact absurd h (by simp)
      · rw [if_neg hA] at h
        rw [if_neg (by rw [hsid] at hA ⊢; exact hA)] at h
        exact absurd h (by simp)
    · rintro (hfail | ⟨hids, hpath⟩)
      · exact absurd hfail (by simp)
      · have hA : (scanAll ls).sessionID = "" := by
          rw [hsid, hids, List.headD_nil]
        rw [if_pos hA, if_pos hpath]

theorem uuidScan_iff (l : List Char) (n : Nat) :
    uuidScan n l = true ↔
      ∀ i < l.length, uuidPosOk (n + i) (l.getD i ' ') = true := by
  induction l generalizing n with
  | nil => simp [uuidScan]
  | cons c cs ih =>
    simp only [uuidScan, Bool.and_eq_true, ih (n + 1)]
    constructor
    · rintro ⟨hc, hrest⟩ i hi
      cases i with
      | zero => simpa using hc
      | succ j =>
        have hj : j < cs.length := by simpa using hi
        have h2 := hrest j hj
        have harith : n + 1 + j = n + (j + 1) := by omega
        rw [harith] at h2
        simpa [List.getD_cons_succ] using h2
    · intro hall
      constructor
      · simpa using hall 0 (by simp)
      · intro j hj
        have h2 := hall (j + 1) (by simpa using Nat.succ_lt_succ hj)
        have harith : n + (j + 1) = n + 1 + j := by omega
        rw [harith] at h2
        simpa [List.getD_cons_succ] using h2

/-- Modelled from the spec: "the trailing 36 characters of the remaining name
match the canonical 8-4-4-4-12 hexadecimal grouping (hyphens at positions 8,
13, 18, 23; hex digits elsewhere, case-insensitive)" — stated positionally,
independently of the code's scanning loop. -/
def UUIDShaped (t : List Char) : Prop :=
  ∀ i < 36,
    ((i = 8 ∨ i = 13 ∨ i = 18 ∨ i = 23) → t.getD i ' ' = '-') ∧
    (¬(i = 8 ∨ i = 13 ∨ i = 18 ∨ i = 23) →
      (('0' ≤ t.getD i ' ' ∧ t.getD i ' ' ≤ '9') ∨
       ('a' ≤ t.getD i ' ' ∧ t.getD i ' ' ≤ 'f') ∨
       ('A' ≤ t.getD i ' ' ∧ t.getD i ' ' ≤ 'F')))

instance (t : List Char) : Decidable (UUIDShaped t) := by
  unfold UUIDShaped
  infer_instance

theorem uuidPosOk_iff (i : Nat) (c : Char) :
    uuidPosOk i c = true ↔
      (((i = 8 ∨ i = 13 ∨ i = 18 ∨ i = 23) → c = '-') ∧
       (¬(i = 8 ∨ i = 13 ∨ i = 18 ∨ i = 23) →
         (('0' ≤ c ∧ c ≤ '9') ∨ ('a' ≤ c ∧ c ≤ 'f') ∨ ('A' ≤ c ∧ c ≤ 'F')))) := by
  unfold uuidPosOk isHexChar
  by_cases hp : i = 8 ∨ i = 13 ∨ i = 18 ∨ i = 23 <;> simp [hp, or_assoc]

theorem isUUIDLike_iff_shaped (t : List Char) :
    isUUIDLike (String.mk t) = true ↔ t.length = 36 ∧ UUIDShaped t := by
  have htl : (String.mk t).toList = t := rfl
  have hln : (String.mk t).length = t.length := rfl
  unfold isUUIDLike
  rw [Bool.and_eq_true, decide_eq_true_eq, uuidScan_iff, htl, hln]
  unfold UUIDShaped
  constructor
  · rintro ⟨hlen, hscan⟩
    refine ⟨hlen, fun i hi => ?_⟩
    have h2 := hscan i (by rw [hlen]; exact hi)
    rw [Nat.zero_add] at h2
    exact (uuidPosOk_iff i (t.getD i ' ')).mp h2
  · rintro ⟨hlen, hsh⟩
    refine ⟨hlen, fun i hi => ?_⟩
    rw [Nat.zero_add]
    exact (uuidPosOk_iff i (t.getD i ' ')).mpr (hsh i (by rw [← hlen]; exact hi))

theorem extractSessionIDFromPath_spec (path : String) :
    ((36 ≤ (trimSuffix (filepathBase path) ".jsonl").length ∧
        UUIDShaped ((trimSuffix (filepathBase path) ".jsonl").toList.drop
          ((trimSuffix (filepathBase path) ".jsonl").length - 36))) →
      extractSessionIDFromPath path =
        String.mk ((trimSuffix (filepathBase path) ".jsonl").toList.drop
          ((trimSuffix (filepathBase path) ".jsonl").length - 36))) ∧
    (¬(36 ≤ (trimSuffix (filepathBase path) ".jsonl").length ∧
        UUIDShaped ((trimSuffix (filepathBase path) ".jsonl").toList.drop
          ((trimSuffix (filepathBase path) ".jsonl").length - 36))) →
      extractSessionIDFromPath path = trimSuffix (filepathBase path) ".jsonl") := by
  simp only [extractSessionIDFromPath]
  have hlist : (trimSuffix (filepathBase path) ".jsonl").toList.length =
      (trimSuffix (filepathBase path) ".jsonl").length := rfl
  constructor
  · rintro ⟨h36, hsh⟩
    rw [if_pos h36, if_pos]
    rw [isUUIDLike_iff_shaped]
    refine ⟨?_, hsh⟩
    rw [List.length_drop, hlist]
    omega
  · intro hno
    by_cases h36 : 36 ≤ (trimSuffix (filepathBase path) ".jsonl").length
    · rw [if_pos h36, if_neg]
      rw [isUUIDLike_iff_shaped]
      rintro ⟨-, hsh⟩
      exact hno ⟨h36, hsh⟩
    · rw [if_neg h36]

theorem sorted_headD_le (l : List Int) (hs : l.Sorted (fun x y => x ≤ y)) :
    ∀ t ∈ l, l.headD 0 ≤ t := by
  cases l with
  | nil => intro t ht; cases ht
  | cons a rest =>
    intro t ht
    rw [List.headD_cons]
    rcases List.mem_cons.mp ht with rfl | htl
    · exact le_refl t
    · exact (List.sorted_cons.mp hs).1 t htl

theorem sorted_le_getLastD (a : Int) (rest : List Int)
    (hs : (a :: rest).Sorted (fun x y => x ≤ y)) :
    ∀ t ∈ a :: rest, t ≤ (a :: rest).getLastD 0 := by
  induction rest generalizing a with
  | nil =>
    intro t ht
    rw [List.mem_singleton] at ht
    subst ht
    exact le_refl t
  | cons b r ih =>
    intro t ht
    obtain ⟨hab, hrest⟩ := List.sorted_cons.mp hs
    have hbr := ih b hrest
    rcases List.mem_cons.mp ht with h1 | htl
    · rw [h1]
      calc a ≤ b := hab b (List.mem_cons_self b r)
        _ ≤ (b :: r).getLastD 0 := hbr b (List.mem_cons_self b r)
        _ = (a :: b :: r).getLastD 0 := by simp [List.getLastD_cons]
    · calc t ≤ (b :: r).getLastD 0 := hbr t htl
        _ = (a :: b :: r).getLastD 0 := by simp [List.getLastD_cons]

theorem firstNZ_of_all_pos (l : List Int) (hpos : ∀ t ∈ l, 0 < t) :
    firstNZ l = l.headD 0 := by
  unfold firstNZ
  have hfil : (l.filter fun t => t ≠ 0) = l := by
    rw [List.filter_eq_self]
    intro a ha
    have := hpos a ha
    simp only [ne_eq, decide_not, Bool.not_eq_true', decide_eq_false_iff_not]
    omega
  rw [hfil]

/-! ## Tracker lemmas -/

theorem runFile_cons (th : Int) (p : String) (s : Option TrackedFile)
    (e : TEvent) (es : List TEvent) :
    runFile th p s (e :: es) =
      ((runFile th p (stepFile th p s e).1 es).1,
       (if (stepFile th p s e).2 then 1 else 0) +
         (runFile th p (stepFile th p s e).1 es).2) := rfl

theorem checkFile_eq_of_fire (th now : Int) (tf : TrackedFile)
    (h : tf.reported = false) (hidle : th ≤ now - tf.lastWrite) :
    checkFile th false now tf =
      (some { tf with reported := true, reportedAt := now }, true) := by
  unfold checkFile
  rw [if_neg (by simp [h]), if_neg (by simp [h]), if_neg (by omega),
    if_neg (by simp)]

theorem checkFile_eq_of_unreported_noemit (th : Int) (alive : Bool) (now : Int)
    (tf : TrackedFile) (h : tf.reported = false)
    (hne : ¬(th ≤ now - tf.lastWrite ∧ alive = false)) :
    checkFile th alive now tf = (some tf, false) := by
  unfold checkFile
  rw [if_neg (by simp [h]), if_neg (by simp [h])]
  by_cases hidle : now - tf.lastWrite < th
  · rw [if_pos hidle]
  · rw [if_neg hidle]
    cases alive with
    | true => rw [if_pos (by simp)]
    | false => exact absurd ⟨by omega, rfl⟩ hne

theorem checkFile_emits_iff (th : Int) (alive : Bool) (now : Int)
    (tf : TrackedFile) (h : tf.reported = false) :
    (checkFile th alive now tf).2 = true ↔
      (th ≤ now - tf.lastWrite ∧ alive = false) := by
  constructor
  · intro hemit
    by_contra hne
    rw [checkFile_eq_of_unreported_noemit th alive now tf h hne] at hemit
    exact absurd hemit (by simp)
  · rintro ⟨hidle, rfl⟩
    rw [checkFile_eq_of_fire th now tf h hidle]

theorem checkFile_no_emission_of_reported (th : Int) (alive : Bool) (now : Int)
    (tf : TrackedFile) (h : tf.reported = true) :
    (checkFile th alive now tf).2 = false := by
  unfold checkFile
  split_ifs <;> simp_all

theorem checkFile_state_of_reported (th : Int) (alive : Bool) (now : Int)
    (tf : TrackedFile) (h : tf.reported = true) :
    (checkFile th alive now tf).1 = none ∨
      (checkFile th alive now tf).1 = some tf := by
  unfold checkFile
  split_ifs <;> simp_all

theorem checkFile_no_emission_of_alive (th now : Int) (tf : TrackedFile) :
    (checkFile th true now tf).2 = false := by
  unfold checkFile
  split_ifs <;> simp_all

theorem runFile_zero_of_reported (th : Int) (p : String) :
    ∀ (es : List TEvent), es.all isSweep = true →
    ∀ s : Option TrackedFile,
      (s = none ∨ ∃ tf, s = some tf ∧ tf.reported = true) →
      (runFile th p s es).2 = 0 := by
  intro es
  induction es with
  | nil => intro _ s _; rfl
  | cons e es ih =>
    intro hsw s hs
    have hsw1 : isSweep e = true := by
      rw [List.all_cons, Bool.and_eq_true] at hsw
      exact hsw.1
    have hsw2 : es.all isSweep = true := by
      rw [List.all_cons, Bool.and_eq_true] at hsw
      exact hsw.2
    cases e with
    | touch n => exact absurd hsw1 (by simp [isSweep])
    | sweep now alive =>
      rw [runFile_cons]
      rcases hs with rfl | ⟨tf, rfl, hrep⟩
      · show (if (stepFile th p none (.sweep now alive)).2 then 1 else 0) +
            (runFile th p (stepFile th p none (.sweep now alive)).1 es).2 = 0
        rw [show stepFile th p none (.sweep now alive) = (none, false) from rfl]
        simpa using ih hsw2 none (Or.inl rfl)
      · show (if (checkFile th alive now tf).2 then 1 else 0) +
            (runFile th p (checkFile th alive now tf).1 es).2 = 0
        rw [checkFile_no_emission_of_reported th alive now tf hrep]
        rcases checkFile_state_of_reported th alive now tf hrep with hst | hst
        · rw [hst]
          simpa using ih hsw2 none (Or.inl rfl)
        · rw [hst]
          simpa using ih hsw2 (some tf) (Or.inr ⟨tf, rfl, hrep⟩)

theorem runFile_count_of_unreported (th : Int) (p : String) (tf : TrackedFile)
    (hrep : tf.reported = false) :
    ∀ (es : List TEvent), es.all isSweep = true →
    (runFile th p (some tf) es).2 =
      (if es.any (fires th tf.lastWrite) then 1 else 0) := by
  intro es
  induction es with
  | nil => intro _; rfl
  | cons e es ih =>
    intro hsw
    have hsw1 : isSweep e = true := by
      rw [List.all_cons, Bool.and_eq_true] at hsw
      exact hsw.1
    have hsw2 : es.all isSweep = true := by
      rw [List.all_cons, Bool.and_eq_true] at hsw
      exact hsw.2
    cases e with
    | touch n => exact absurd hsw1 (by simp [isSweep])
    | sweep now alive =>
      rw [runFile_cons]
      show (if (checkFile th alive now tf).2 then 1 else 0) +
          (runFile th p (checkFile th alive now tf).1 es).2 =
        if (TEvent.sweep now alive :: es).any (fires th tf.lastWrite) then 1 else 0
      by_cases hf : th ≤ now - tf.lastWrite ∧ alive = false
      · obtain ⟨hidle, halive⟩ := hf
        subst halive
        rw [checkFile_eq_of_fire th now tf hrep hidle]
        have hz := runFile_zero_of_reported th p es hsw2
          (some { tf with reported := true, reportedAt := now })
          (Or.inr ⟨_, rfl, rfl⟩)
        rw [List.any_cons]
        have hfire : fires th tf.lastWrite (TEvent.sweep now false) = true := by
          simp [fires]
          omega
        rw [hfire]
        simp [hz]
      · rw [checkFile_eq_of_unreported_noemit th alive now tf hrep hf]
        have hfire : fires th tf.lastWrite (TEvent.sweep now alive) = false := by
          cases alive with
          | true => simp [fires]
          | false =>
            have hni : ¬ th ≤ now - tf.lastWrite := fun hh => hf ⟨hh, rfl⟩
            simp [fires]
            omega
        rw [List.any_cons, hfire]
        simpa using ih hsw2

theorem runFile_zero_of_alive (th : Int) (p : String) :
    ∀ (es : List TEvent), es.all oracleTrue = true →
    ∀ s : Option TrackedFile, (runFile th p s es).2 = 0 := by
  intro es
  induction es with
  | nil => intro _ s; rfl
  | cons e es ih =>
    intro hal s
    have hal1 : oracleTrue e = true := by
      rw [List.all_cons, Bool.and_eq_true] at hal
      exact hal.1
    have hal2 : es.all oracleTrue = true := by
      rw [List.all_cons, Bool.and_eq_true] at hal
      exact hal.2
    rw [runFile_cons]
    have hemit : (stepFile th p s e).2 = false := by
      cases e with
      | touch n => cases s <;> rfl
      | sweep now alive =>
        have halive : alive = true := by simpa [oracleTrue] using hal1
        subst halive
        cases s with
        | none => rfl
        | some tf => exact checkFile_no_emission_of_alive th now tf
    rw [hemit]
    simpa using ih hal2 (stepFile th p s e).1

/-- The wall-clock instant an event carries. -/
def eventTime : TEvent → Int
  | .touch n => n
  | .sweep n _ => n

/-- Invariant relating `reported` and `reportedAt`: a reported entry carries a
non-zero report instant (Go sets `reportedAt = now` together with
`reported = true`, and `time.Now()` is never the zero `time.Time`). -/
def ReportedAtOk : Option TrackedFile → Prop
  | none => True
  | some tf => tf.reported = true → tf.reportedAt ≠ 0

theorem stepFile_preserves_ok (th : Int) (p : String) (s : Option TrackedFile)
    (e : TEvent) (hok : ReportedAtOk s) (ht : eventTime e ≠ 0) :
    ReportedAtOk (stepFile th p s e).1 := by
  cases e with
  | touch n =>
    cases s <;> simp [stepFile, touchFile, ReportedAtOk]
  | sweep now alive =>
    cases s with
    | none => exact trivial
    | some tf =>
      show ReportedAtOk (checkFile th alive now tf).1
      unfold checkFile
      split_ifs
      · exact trivial
      · exact hok
      · exact hok
      · exact hok
      · intro _
        simpa [eventTime] using ht

theorem runFile_preserves_ok (th : Int) (p : String) :
    ∀ (es : List TEvent) (s : Option TrackedFile),
      (∀ e ∈ es, eventTime e ≠ 0) → ReportedAtOk s →
      ReportedAtOk (runFile th p s es).1 := by
  intro es
  induction es with
  | nil => intro s _ h; exact h
  | cons e es ih =>
    intro s hts h
    rw [runFile_cons]
    exact ih _ (fun x hx => hts x (List.mem_cons_of_mem _ hx))
      (stepFile_preserves_ok th p s e h (hts e (List.mem_cons_self e es)))

theorem checkFile_eq_of_evict (th : Int) (alive : Bool) (now : Int)
    (tf : TrackedFile) (h : tf.reported = true) (hra : tf.reportedAt ≠ 0)
    (hg : cleanupGrace ≤ now - tf.reportedAt) :
    checkFile th alive now tf = (none, false) := by
  unfold checkFile
  rw [if_pos ⟨h, hra, hg⟩]

theorem checkMap_keys_subset (th : Int) (oracle : String → Bool) (now : Int) :
    ∀ (files : List (String × TrackedFile)) (q : String × TrackedFile),
      q ∈ (checkMap th oracle now files).1 → q.1 ∈ files.map Prod.fst := by
  intro files
  induction files with
  | nil => intro q hq; simp [checkMap] at hq
  | cons r rest ih =>
    intro q hq
    rw [checkMap] at hq
    rcases hcf : checkFile th (oracle r.1) now r.2 with ⟨tf', emitted⟩
    cases tf' with
    | none =>
      rw [hcf] at hq
      exact List.mem_cons_of_mem _ (ih q hq)
    | some tf2 =>
      rw [hcf] at hq
      rcases List.mem_cons.mp hq with h1 | h2
      · rw [h1]
        exact List.mem_cons_self _ _
      · exact List.mem_cons_of_mem _ (ih q h2)

theorem checkMap_ready_subset (th : Int) (oracle : String → Bool) (now : Int) :
    ∀ (files : List (String × TrackedFile)) (x : String),
      x ∈ (checkMap th oracle now files).2 → x ∈ files.map Prod.fst := by
  intro files
  induction files with
  | nil => intro x hx; simp [checkMap] at hx
  | cons r rest ih =>
    intro x hx
    rw [checkMap] at hx
    rcases hcf : checkFile th (oracle r.1) now r.2 with ⟨tf', emitted⟩
    cases tf' with
    | none =>
      rw [hcf] at hx
      exact List.mem_cons_of_mem _ (ih x hx)
    | some tf2 =>
      rw [hcf] at hx
      cases emitted with
      | true =>
        rcases List.mem_cons.mp hx with h1 | h2
        · rw [h1]
          exact List.mem_cons_self _ _
        · exact List.mem_cons_of_mem _ (ih x h2)
      | false => exact List.mem_cons_of_mem _ (ih x hx)

theorem lookup_eq_none_of_not_mem_keys (p : String) :
    ∀ (files : List (String × TrackedFile)),
      p ∉ files.map Prod.fst → files.lookup p = none := by
  intro files
  induction files with
  | nil => intro _; rfl
  | cons r rest ih =>
    intro hp
    cases hbeq : p == r.1 with
    | true =>
      exfalso
      apply hp
      rw [List.map_cons, beq_iff_eq.mp hbeq]
      exact List.mem_cons_self r.1 _
    | false =>
      rw [List.lookup_cons, hbeq]
      exact ih fun hm => hp (by rw [List.map_cons]; exact List.mem_cons_of_mem _ hm)

theorem checkMap_evicts (th : Int) (oracle : String → Bool) (now : Int) :
    ∀ (files : List (String × TrackedFile)) (p : String) (tf : TrackedFile),
      (files.map Prod.fst).Nodup →
      files.lookup p = some tf →
      tf.reported = true → tf.reportedAt ≠ 0 →
      cleanupGrace ≤ now - tf.reportedAt →
      (checkMap th oracle now files).1.lookup p = none ∧
        p ∉ (checkMap th oracle now files).2 := by
  intro files
  induction files with
  | nil => intro p tf _ hlk; simp [List.lookup] at hlk
  | cons r rest ih =>
    intro p tf hnd hlk hrep hra hg
    rw [List.map_cons, List.nodup_cons] at hnd
    rw [checkMap]
    by_cases hpq : p = r.1
    · have hbeq : (p == r.1) = true := beq_iff_eq.mpr hpq
      rw [List.lookup_cons, hbeq] at hlk
      have hlk2 : some r.2 = some tf := hlk
      rw [Option.some_inj] at hlk2
      replace hlk := hlk2
      rw [checkFile_eq_of_evict th (oracle r.1) now r.2
        (hlk ▸ hrep) (hlk ▸ hra) (hlk ▸ hg)]
      have hkeys : p ∉ (checkMap th oracle now rest).1.map Prod.fst := by
        intro hmem
        rcases List.mem_map.mp hmem with ⟨q, hq, hq1⟩
        have hsub := checkMap_keys_subset th oracle now rest q hq
        rw [hq1] at hsub
        exact hnd.1 (hpq ▸ hsub)
      refine ⟨lookup_eq_none_of_not_mem_keys p _ hkeys, ?_⟩
      intro hready
      exact hnd.1 (hpq ▸ checkMap_ready_subset th oracle now rest p hready)
    · have hbeq : (p == r.1) = false := beq_eq_false_iff_ne.mpr hpq
      rw [List.lookup_cons, hbeq] at hlk
      obtain ⟨h1, h2⟩ := ih p tf hnd.2 hlk hrep hra hg
      rcases hcf : checkFile th (oracle r.1) now r.2 with ⟨tf', emitted⟩
      cases tf' with
      | none => exact ⟨h1, h2⟩
      | some tf2 =>
        constructor
        · rw [List.lookup_cons, hbeq]
          exact h1
        · cases emitted with
          | true =>
            intro hmem
            rcases List.mem_cons.mp hmem with hx | hx
            · exact hpq hx
            · exact h2 hx
          | false => exact h2

/-! ## Claims -/

/-- C1: for a tracked path, a sweep emits a completion for an unreported entry
iff the idle time (now − lastWriteTime) is at least idleThreshold and the
Liveness Oracle returns false; over any sweep-only trace (no intervening
Touch) starting from an unreported entry, exactly one completion is emitted
when some sweep meets both conditions and none otherwise — so at most one per
idle episode, with nothing further on later sweeps; and if the oracle answers
true at every sweep, no completion is ever emitted regardless of idle time. -/
theorem C1_sweep_completion_conditions (th : Int) (p : String)
    (tf : TrackedFile) (hrep : tf.reported = false) :
    (∀ (alive : Bool) (now : Int),
      (checkFile th alive now tf).2 = true ↔
        (th ≤ now - tf.lastWrite ∧ alive = false)) ∧
    (∀ es : List TEvent, es.all isSweep = true →
      (runFile th p (some tf) es).2 =
        (if es.any (fires th tf.lastWrite) then 1 else 0)) ∧
    (∀ (es : List TEvent) (s : Option TrackedFile), es.all oracleTrue = true →
      (runFile th p s es).2 = 0) :=
  ⟨fun alive now => checkFile_emits_iff th alive now tf hrep,
   fun es hsw => runFile_count_of_unreported th p tf hrep es hsw,
   fun es s hal => runFile_zero_of_alive th p es hal s⟩

/-- C1 witness: a concrete unreported entry and a concrete sweep-only trace in
which the second sweep meets both conditions; exactly one completion. -/
theorem C1_sweep_completion_conditions_witness :
    (runFile 50 "p"
      (some { path := "p", lastWrite := 0, reported := false, reportedAt := 0 })
      [TEvent.sweep 10 false, TEvent.sweep 60 false, TEvent.sweep 80 false]).2 = 1 := by
  have h := (C1_sweep_completion_conditions 50 "p"
      { path := "p", lastWrite := 0, reported := false, reportedAt := 0 } rfl).2.1
    [TEvent.sweep 10 false, TEvent.sweep 60 false, TEvent.sweep 80 false] (by decide)
  rw [h]
  decide

/-- C2: a Touch on a tracked entry with reported = true clears the flag and
sets lastWriteTime to the touch time; afterwards, over any sweep-only trace,
exactly one further completion is emitted precisely when some sweep has at
least the idle threshold elapsed since the touch with the oracle false — each
new idle episode of the same path is individually reportable. -/
theorem C2_touch_resets_reported (th now : Int) (p : String) (tf : TrackedFile)
    (hrep : tf.reported = true) :
    (touchFile p now (some tf)).reported = false ∧
    (touchFile p now (some tf)).lastWrite = now ∧
    (∀ es : List TEvent, es.all isSweep = true →
      (runFile th p (some (touchFile p now (some tf))) es).2 =
        (if es.any (fires th now) then 1 else 0)) := by
  refine ⟨rfl, rfl, fun es hsw => ?_⟩
  exact runFile_count_of_unreported th p (touchFile p now (some tf)) rfl es hsw

/-- C2 witness: a reported entry is touched at time 100; the sweep at 40 ns of
idle does nothing, the one past the threshold with the oracle false completes
exactly once. -/
theorem C2_touch_resets_reported_witness :
    (touchFile "p" 100
      (some { path := "p", lastWrite := 0, reported := true, reportedAt := 60 })).reported
        = false ∧
    (runFile 50 "p"
      (some (touchFile "p" 100
        (some { path := "p", lastWrite := 0, reported := true, reportedAt := 60 })))
      [TEvent.sweep 140 false, TEvent.sweep 160 false, TEvent.sweep 200 false]).2 = 1 := by
  have h := C2_touch_resets_reported 50 100 "p"
    { path := "p", lastWrite := 0, reported := true, reportedAt := 60 } rfl
  refine ⟨h.1, ?_⟩
  rw [h.2.2 [TEvent.sweep 140 false, TEvent.sweep 160 false, TEvent.sweep 200 false]
    (by decide)]
  decide

/-- C8: during a sweep at a time at least cleanupGrace (5 minutes) after
reportedAt, an entry with reported = true (whose reportedAt is non-zero, as
the reachability invariant guarantees) is deleted from the tracking map and is
not queued for parsing on that pass; the surviving map does not depend on the
parse function at all, so eviction happens regardless of parse outcome; and
every state reachable from the empty state by events carrying non-zero times
satisfies the reported ⇒ reportedAt ≠ 0 invariant. -/
theorem C8_eviction_after_grace (th : Int) (oracle : String → Bool)
    (parse : String → Option CompletedSession) (now : Int)
    (files : List (String × TrackedFile)) (p : String) (tf : TrackedFile)
    (hnd : (files.map Prod.fst).Nodup)
    (hlk : files.lookup p = some tf)
    (hrep : tf.reported = true) (hra : tf.reportedAt ≠ 0)
    (hg : cleanupGrace ≤ now - tf.reportedAt) :
    (trackerCheck th oracle parse now files).1.lookup p = none ∧
    p ∉ (checkMap th oracle now files).2 ∧
    (∀ parse2 : String → Option CompletedSession,
      (trackerCheck th oracle parse2 now files).1 =
        (trackerCheck th oracle parse now files).1) ∧
    (∀ (es : List TEvent) (q : String),
      (∀ e ∈ es, eventTime e ≠ 0) →
      ReportedAtOk (runFile th q none es).1) := by
  obtain ⟨h1, h2⟩ := checkMap_evicts th oracle now files p tf hnd hlk hrep hra hg
  exact ⟨h1, h2, fun _ => rfl,
    fun es q hts => runFile_preserves_ok th q es none hts trivial⟩

/-- C8 witness: one reported entry, reported 5 minutes before the sweep; the
sweep deletes it and queues nothing, with the trivial parse function. -/
theorem C8_eviction_after_grace_witness :
    (trackerCheck 50 (fun _ => false) (fun _ => none) 300000000100
      [("p", { path := "p", lastWrite := 0, reported := true,
               reportedAt := 100 })]).1.lookup "p" = none ∧
    "p" ∉ (checkMap 50 (fun _ => false) 300000000100
      [("p", { path := "p", lastWrite := 0, reported := true,
               reportedAt := 100 })]).2 := by
  have h := C8_eviction_after_grace 50 (fun _ => false) (fun _ => none)
    300000000100
    [("p", { path := "p", lastWrite := 0, reported := true, reportedAt := 100 })]
    "p" { path := "p", lastWrite := 0, reported := true, reportedAt := 100 }
    (by decide) (by decide) rfl (by decide) (by decide)
  exact ⟨h.1, h.2.1⟩

/-- C9 counterexample: the first Stop succeeds, but a second Stop on the same
tracker runs close on an already-closed channel and faults — it does not
complete without fault as the claim states. -/
theorem C9_counterexample :
    trackerStop { closed := false } = Except.ok { closed := true } ∧
    trackerStop { closed := true } = Except.error "close of closed channel" :=
  ⟨rfl, rfl⟩

/-- C9 amended: a single call to Stop on a not-yet-stopped tracker completes
without fault and closes the done channel; once closed, the done case of
Start's select is always ready and taking it makes the loop return at that
iteration (terminating at its next opportunity rather than busy-waiting); a
second call to Stop faults (Go panic: close of closed channel), so Stop is not
safe to call twice. -/
theorem C9_stop_single_call (c : DoneChan) (h : c.closed = false) :
    trackerStop c = Except.ok { closed := true } ∧
    doneReady { closed := true } = true ∧
    (∀ sched : List SelectCase, runStart (SelectCase.done :: sched) = true) ∧
    trackerStop { closed := true } = Except.error "close of closed channel" := by
  cases c with
  | mk b =>
    cases b with
    | false => exact ⟨rfl, rfl, fun _ => rfl, rfl⟩
    | true => exact absurd h (by simp)

/-- C9 witness: the amended statement at the freshly constructed tracker, with
a concrete one-step schedule for the loop. -/
theorem C9_stop_single_call_witness :
    trackerStop { closed := false } = Except.ok { closed := true } ∧
    doneReady { closed := true } = true ∧
    runStart [SelectCase.done] = true ∧
    trackerStop { closed := true } = Except.error "close of closed channel" := by
  have h := C9_stop_single_call { closed := false } rfl
  exact ⟨h.1, h.2.1, h.2.2.1 [], h.2.2.2⟩

theorem getLastD_mem_cons (a : Int) (rest : List Int) :
    (a :: rest).getLastD 0 ∈ a :: rest := by
  induction rest generalizing a with
  | nil => simp [List.getLastD]
  | cons b r ih =>
    rw [List.getLastD_cons, List.getLastD_cons]
    have h2 := ih b
    rw [List.getLastD_cons] at h2
    exact List.mem_cons_of_mem _ h2

/-- C3 counterexample: a transcript whose two parseable timestamps appear in
decreasing file order; the parser computes DurationMs = last − first = −1 ms
(file order), not max − min = 1 ms, so DurationMs is negative — the claim's
"max minus min, never negative" fails on this input. -/
theorem C3_counterexample :
    (parseTranscript (fun l => l)
      { path := "/tmp/c3.jsonl", openOk := true,
        lines :=
          [Line.entry { type := "user", sessionId := "s-c3",
                        timestamp := some 2000000, cwd := "", message := none },
           Line.entry { type := "user", sessionId := "",
                        timestamp := some 1000000, cwd := "", message := none }],
        scanErr := false }).map CompletedSession.DurationMs = some (-1) := by
  decide

/-- C3 amended: DurationMs is computed from the first and last parsed
timestamps in file order (not the minimum and maximum): provided every parsed
timestamp is a positive instant (true of any real RFC3339 timestamp, the zero
instant being year 1), DurationMs = (last − first) truncated to milliseconds,
it is 0 when fewer than two timestamps parse, and it can be negative when
timestamps appear out of order; when the parsed timestamps are nondecreasing
in file order, the first is the minimum and the last the maximum, so DurationMs
equals max − min in milliseconds and is nonnegative. -/
theorem C3_duration_file_order (ord : List String → List String)
    (f : TranscriptFile) (cs : CompletedSession)
    (h : parseTranscript ord f = some cs)
    (hpos : ∀ t ∈ tsList f.lines, 0 < t) :
    (tsList f.lines = [] → cs.DurationMs = 0) ∧
    (tsList f.lines ≠ [] →
      cs.DurationMs =
        Int.tdiv ((tsList f.lines).getLastD 0 - (tsList f.lines).headD 0)
          1000000) ∧
    ((tsList f.lines).length ≤ 1 → cs.DurationMs = 0) ∧
    ((tsList f.lines).Sorted (fun x y => x ≤ y) →
      0 ≤ cs.DurationMs ∧
      ∀ t ∈ tsList f.lines,
        (tsList f.lines).headD 0 ≤ t ∧ t ≤ (tsList f.lines).getLastD 0) := by
  obtain ⟨-, -, -, -, -, -, hdur, -⟩ := parseTranscript_some_elim ord f cs h
  rw [scanAll_firstTS, scanAll_lastTS, firstNZ_of_all_pos (tsList f.lines) hpos]
    at hdur
  cases hts : tsList f.lines with
  | nil =>
    rw [hts] at hdur
    simp only [List.headD_nil, List.getLastD_nil] at hdur
    rw [if_neg (by simp)] at hdur
    exact ⟨fun _ => hdur, fun hne => absurd rfl hne,
      fun _ => hdur, fun _ => ⟨by simp [hdur], by simp⟩⟩
  | cons a rest =>
    rw [hts] at hdur hpos
    have hhead : (0:Int) < a := hpos a (List.mem_cons_self a rest)
    have hlast : (0:Int) < (a :: rest).getLastD 0 :=
      hpos _ (getLastD_mem_cons a rest)
    rw [List.headD_cons] at hdur
    rw [if_pos ⟨by omega, by omega⟩] at hdur
    refine ⟨fun hc => absurd hc (by simp), fun _ => by
        rw [hdur, List.headD_cons], ?_, ?_⟩
    · intro hlen
      cases rest with
      | nil =>
        rw [hdur]
        simp [List.getLastD]
      | cons b r => simp at hlen
    · intro hsorted
      have hbound1 := sorted_headD_le (a :: rest) hsorted
      have hbound2 := sorted_le_getLastD a rest hsorted
      constructor
      · rw [hdur]
        apply Int.tdiv_nonneg
        · have := hbound2 a (List.mem_cons_self a rest)
          omega
        · omega
      · intro t ht
        rw [List.headD_cons]
        exact ⟨by simpa using hbound1 t ht, hbound2 t ht⟩

/-- The concrete in-order transcript used by the C3 amended witness. -/
def fileC3w : TranscriptFile :=
  { path := "/tmp/c3w.jsonl", openOk := true,
    lines :=
      [Line.entry { type := "user", sessionId := "s-c3w",
                    timestamp := some 60000000000, cwd := "", message := none },
       Line.entry { type := "user", sessionId := "",
                    timestamp := some 120000000000, cwd := "", message := none }],
    scanErr := false }

/-- The parse result of `fileC3w`. -/
def csC3w : CompletedSession :=
  { SessionID := "s-c3w", TranscriptPath := "/tmp/c3w.jsonl",
    FilesChanged := [], WorkingDir := "", DurationMs := 60000, ExitCode := 1 }

/-- C3 amended witness: on a concrete in-order transcript, two timestamps one
minute apart give a nonnegative DurationMs of 60000 ms. -/
theorem C3_duration_file_order_witness :
    csC3w.DurationMs = 60000 ∧ (0:Int) ≤ csC3w.DurationMs := by
  have h := C3_duration_file_order (fun l => l) fileC3w csC3w
    (by decide) (by decide)
  exact ⟨rfl, (h.2.2.2 (by decide)).1⟩

/-- C4: when no line of the file yields a non-empty sessionId field, the
parser derives SessionID from the filename: after stripping the ".jsonl"
suffix from the base name, if at least 36 characters remain and the trailing
36 characters have hyphens exactly at positions 8, 13, 18, 23 and
case-insensitive hex digits at every other position (the spec-worded
`UUIDShaped` predicate), SessionID is that 36-character substring; otherwise
it is the entire remaining base name verbatim. -/
theorem C4_session_id_filename_fallback (ord : List String → List String)
    (f : TranscriptFile) (cs : CompletedSession)
    (hids : idsList f.lines = [])
    (h : parseTranscript ord f = some cs) :
    ((36 ≤ (trimSuffix (filepathBase f.path) ".jsonl").length ∧
        UUIDShaped ((trimSuffix (filepathBase f.path) ".jsonl").toList.drop
          ((trimSuffix (filepathBase f.path) ".jsonl").length - 36))) →
      cs.SessionID =
        String.mk ((trimSuffix (filepathBase f.path) ".jsonl").toList.drop
          ((trimSuffix (filepathBase f.path) ".jsonl").length - 36))) ∧
    (¬(36 ≤ (trimSuffix (filepathBase f.path) ".jsonl").length ∧
        UUIDShaped ((trimSuffix (filepathBase f.path) ".jsonl").toList.drop
          ((trimSuffix (filepathBase f.path) ".jsonl").length - 36))) →
      cs.SessionID = trimSuffix (filepathBase f.path) ".jsonl") := by
  obtain ⟨-, -, hsid, -, -, -, -, -⟩ := parseTranscript_some_elim ord f cs h
  have hempty : (scanAll f.lines).sessionID = "" := by
    rw [scanAll_sessionID, hids, List.headD_nil]
  rw [if_pos hempty] at hsid
  obtain ⟨he1, he2⟩ := extractSessionIDFromPath_spec f.path
  exact ⟨fun hc => hsid.trans (he1 hc), fun hc => hsid.trans (he2 hc)⟩

/-- C4 witness: a file with no sessionId field whose filename carries a
canonical identifier; the parser's SessionID equals the trailing 36-character
substring of the stripped base name, via the claim theorem applied at that
input with its conditions discharged concretely. -/
theorem C4_session_id_filename_fallback_witness :
    ({ SessionID := "abcdef01-2345-6789-abcd-ef0123456789",
       TranscriptPath := "/tmp/abcdef01-2345-6789-abcd-ef0123456789.jsonl",
       FilesChanged := [], WorkingDir := "", DurationMs := 0,
       ExitCode := 1 } : CompletedSession).SessionID =
      String.mk ((trimSuffix (filepathBase
        "/tmp/abcdef01-2345-6789-abcd-ef0123456789.jsonl") ".jsonl").toList.drop
        ((trimSuffix (filepathBase
          "/tmp/abcdef01-2345-6789-abcd-ef0123456789.jsonl") ".jsonl").length
            - 36)) :=
  (C4_session_id_filename_fallback (fun l => l)
    { path := "/tmp/abcdef01-2345-6789-abcd-ef0123456789.jsonl",
      openOk := true,
      lines := [Line.entry { type := "user", sessionId := "",
                             timestamp := none, cwd := "", message := none }],
      scanErr := false }
    { SessionID := "abcdef01-2345-6789-abcd-ef0123456789",
      TranscriptPath := "/tmp/abcdef01-2345-6789-abcd-ef0123456789.jsonl",
      FilesChanged := [], WorkingDir := "", DurationMs := 0, ExitCode := 1 }
    (by decide) (by decide)).1 (by decide)

/-- C6: the parser returns ExitCode = 1 iff no line of the file carries the
top-level tag type = "assistant" (the assistant-authored message tag), returns
0 iff at least one such line exists, and takes no other value. -/
theorem C6_exit_code_heuristic (ord : List String → List String)
    (f : TranscriptFile) (cs : CompletedSession)
    (h : parseTranscript ord f = some cs) :
    (cs.ExitCode = 1 ↔ ¬ ∃ l ∈ f.lines, taggedAssistant l = true) ∧
    (cs.ExitCode = 0 ↔ ∃ l ∈ f.lines, taggedAssistant l = true) ∧
    (cs.ExitCode = 0 ∨ cs.ExitCode = 1) := by
  obtain ⟨-, -, -, -, -, -, -, hec⟩ := parseTranscript_some_elim ord f cs h
  rw [scanAll_hasAssistantMsg] at hec
  by_cases ha : f.lines.any taggedAssistant = true
  · rw [if_pos ha] at hec
    have hex := List.any_eq_true.mp ha
    refine ⟨⟨?_, fun hn => absurd hex hn⟩, ⟨fun _ => hex, fun _ => hec⟩,
      Or.inl hec⟩
    intro h1
    rw [hec] at h1
    exact absurd h1 (by decide)
  · rw [if_neg ha] at hec
    have hno : ¬ ∃ l ∈ f.lines, taggedAssistant l = true :=
      fun hx => ha (List.any_eq_true.mpr hx)
    refine ⟨⟨fun _ => hno, fun _ => hec⟩, ⟨?_, fun hex => absurd hex hno⟩,
      Or.inr hec⟩
    intro h0
    rw [hec] at h0
    exact absurd h0 (by decide)

/-- C6 witness: a transcript with one summary line and one assistant-typed
line parses with ExitCode = 0, obtained through the claim theorem applied at
that concrete input. -/
theorem C6_exit_code_heuristic_witness :
    ({ SessionID := "s-c6", TranscriptPath := "/tmp/c6.jsonl",
       FilesChanged := [], WorkingDir := "", DurationMs := 0,
       ExitCode := 0 } : CompletedSession).ExitCode = 0 := by
  have h := C6_exit_code_heuristic (fun l => l)
    { path := "/tmp/c6.jsonl", openOk := true,
      lines := [Line.entry { type := "summary", sessionId := "s-c6",
                             timestamp := none, cwd := "", message := none },
                Line.entry { type := "assistant", sessionId := "",
                             timestamp := none, cwd := "", message := none }],
      scanErr := false }
    { SessionID := "s-c6", TranscriptPath := "/tmp/c6.jsonl",
      FilesChanged := [], WorkingDir := "", DurationMs := 0, ExitCode := 0 }
    (by decide)
  exact h.2.1.mpr
    ⟨Line.entry { type := "assistant", sessionId := "", timestamp := none,
                  cwd := "", message := none },
     by decide, by decide⟩

/-- C7: the parser returns an absent result (none, not an error) exactly when
the file cannot be opened or when no session ID is determinable by field
extraction (no line with a non-empty sessionId) or by the filename fallback;
in every other case the result carries a non-empty SessionID; and the result
is built from the accumulated lines independently of whether a scanner error
occurred partway through. -/
theorem C7_absent_result_policy (ord : List String → List String)
    (f : TranscriptFile) :
    (parseTranscript ord f = none ↔
      f.openOk = false ∨
        (idsList f.lines = [] ∧ extractSessionIDFromPath f.path = "")) ∧
    (∀ cs, parseTranscript ord f = some cs → cs.SessionID ≠ "") ∧
    (∀ b : Bool,
      parseTranscript ord { f with scanErr := b } = parseTranscript ord f) :=
  ⟨parseTranscript_none_iff ord f,
   fun cs h => (parseTranscript_some_elim ord f cs h).2.2.2.1,
   fun _ => rfl⟩

/-- C7 witness: a file named ".jsonl" (empty stem) with no sessionId in its
content parses to none even though it opens; a scan error does not change the
result. -/
theorem C7_absent_result_policy_witness :
    parseTranscript (fun l => l)
      { path := "/tmp/.jsonl", openOk := true,
        lines := [Line.entry { type := "user", sessionId := "",
                               timestamp := none, cwd := "", message := none }],
        scanErr := false } = none ∧
    parseTranscript (fun l => l)
      { path := "/tmp/.jsonl", openOk := true,
        lines := [Line.entry { type := "user", sessionId := "",
                               timestamp := none, cwd := "", message := none }],
        scanErr := true } =
      parseTranscript (fun l => l)
        { path := "/tmp/.jsonl", openOk := true,
          lines := [Line.entry { type := "user", sessionId := "",
                                 timestamp := none, cwd := "", message := none }],
          scanErr := false } := by
  constructor
  · exact (C7_absent_result_policy (fun l => l)
      { path := "/tmp/.jsonl", openOk := true,
        lines := [Line.entry { type := "user", sessionId := "",
                               timestamp := none, cwd := "", message := none }],
        scanErr := false }).1.mpr (Or.inr ⟨by decide, by decide⟩)
  · exact (C7_absent_result_policy (fun l => l)
      { path := "/tmp/.jsonl", openOk := true,
        lines := [Line.entry { type := "user", sessionId := "",
                               timestamp := none, cwd := "", message := none }],
        scanErr := false }).2.2 true

/-- Every field of a parse result except the ordering of FilesChanged, whose
contents are recorded as a multiset (order-insensitive). -/
def sessionObs (cs : CompletedSession) :
    String × String × String × Int × Int × Multiset String :=
  (cs.SessionID, cs.TranscriptPath, cs.WorkingDir, cs.DurationMs, cs.ExitCode,
   (cs.FilesChanged : Multiset String))

/-- The transcript used to refute byte-for-byte parse idempotence: one
assistant message writing two distinct files. -/
def fileC5 : TranscriptFile :=
  { path := "/tmp/c5.jsonl", openOk := true,
    lines :=
      [Line.entry
        { type := "assistant", sessionId := "s-c5", timestamp := none,
          cwd := "/w",
          message := some
            { role := "assistant",
              content := some
                [{ type := "tool_use", name := "Write",
                   input := some { file_path := "/w/a.go" } },
                 { type := "tool_use", name := "Edit",
                   input := some { file_path := "/w/b.go" } }] } }],
    scanErr := false }

/-- C5 counterexample: Go's map iteration order is unspecified, so the slice
built from the filesChanged map may come out in different orders on two parses
of the same unchanged file; with two valid iteration orders (the identity and
the reversal, both permutations of the set) the two CompletedSession values
differ — field values are not byte-for-byte identical. -/
theorem C5_counterexample :
    List.Perm (List.reverse ["/w/a.go", "/w/b.go"]) ["/w/a.go", "/w/b.go"] ∧
    parseTranscript (fun l => l) fileC5 ≠ parseTranscript List.reverse fileC5 := by
  constructor
  · decide
  · decide

/-- C5 amended: two parses of the same unchanged well-formed file agree on
every field except the ordering of FilesChanged, which is the same set (equal
as multisets) — parsing is deterministic up to the unspecified iteration order
of the Go map from which the FilesChanged slice is built, and no field is
derived from the wall clock. -/
theorem C5_parse_deterministic_up_to_order (f : TranscriptFile)
    (o1 o2 : List String → List String)
    (h1 : ∀ l, List.Perm (o1 l) l) (h2 : ∀ l, List.Perm (o2 l) l) :
    (parseTranscript o1 f).map sessionObs = (parseTranscript o2 f).map sessionObs := by
  obtain ⟨p, ob, ls, se⟩ := f
  cases ob with
  | false => rfl
  | true =>
    rw [parseTranscript_true_eq, parseTranscript_true_eq]
    by_cases hc : (if (scanAll ls).sessionID = "" then extractSessionIDFromPath p
                   else (scanAll ls).sessionID) = ""
    · rw [if_pos hc, if_pos hc]
    · rw [if_neg hc, if_neg hc]
      rw [Option.map_some', Option.map_some', Option.some_inj]
      unfold sessionObs
      simp only [Prod.mk.injEq, true_and, and_true]
      exact Multiset.coe_eq_coe.mpr ((h1 _).trans ((h2 _).symm))

/-- C5 amended witness: the two concrete iteration orders of the
counterexample agree once FilesChanged is read as a multiset. -/
theorem C5_parse_deterministic_up_to_order_witness :
    (parseTranscript (fun l => l) fileC5).map sessionObs =
      (parseTranscript List.reverse fileC5).map sessionObs :=
  C5_parse_deterministic_up_to_order fileC5 (fun l => l) List.reverse
    (fun l => List.Perm.refl l) (fun l => List.reverse_perm l)

/-- A transcript in which the only message line has nested role "assistant"
(with a Write tool_use) but a top-level type other than "assistant". -/
def fileC10 : TranscriptFile :=
  { path := "/tmp/c10.jsonl", openOk := true,
    lines :=
      [Line.entry
        { type := "message", sessionId := "s-c10", timestamp := none,
          cwd := "/w",
          message := some
            { role := "assistant",
              content := some
                [{ type := "tool_use", name := "Write",
                   input := some { file_path := "/w/a.go" } }] } }],
    scanErr := false }

theorem lineContrib_sound (l : Line) (x : String) (hx : x ∈ lineContrib l) :
    ∃ e m blocks b inp, l = Line.entry e ∧ e.message = some m ∧
      m.role = "assistant" ∧ m.content = some blocks ∧ b ∈ blocks ∧
      b.type = "tool_use" ∧ (b.name = "Write" ∨ b.name = "Edit") ∧
      b.input = some inp ∧ inp.file_path = x ∧ x ≠ "" := by
  cases l with
  | malformed => simp [lineContrib] at hx
  | entry e =>
    obtain ⟨et, esid, ets, ecwd, emsg⟩ := e
    cases emsg with
    | none => simp [lineContrib] at hx
    | some m =>
      obtain ⟨mrole, mcont⟩ := m
      cases mcont with
      | none =>
        simp only [lineContrib] at hx
        split at hx <;> simp at hx
      | some blocks =>
        by_cases hrole : mrole = "assistant"
        · simp only [lineContrib] at hx
          rw [if_neg (by simp [hrole])] at hx
          obtain ⟨b, hb, hbc⟩ := List.mem_filterMap.mp hx
          obtain ⟨bt, bn, bi⟩ := b
          cases bi with
          | none =>
            simp only [blockContrib] at hbc
            split_ifs at hbc
          | some inp =>
            simp only [blockContrib] at hbc
            split_ifs at hbc with h1 h2 h3 <;>
              first
                | (simp at hbc; done)
                | (rw [Option.some_inj] at hbc
                   have hbt2 : bt = "tool_use" := not_not.mp h1
                   have hbn2 : bn = "Write" ∨ bn = "Edit" := by
                     rcases not_and_or.mp h2 with hw | he
                     · exact Or.inl (not_not.mp hw)
                     · exact Or.inr (not_not.mp he)
                   exact ⟨⟨et, esid, ets, ecwd,
                       some ⟨mrole, some blocks⟩⟩, ⟨mrole, some blocks⟩,
                     blocks, ⟨bt, bn, some inp⟩, inp, rfl, rfl, hrole, rfl,
                     hb, hbt2, hbn2, rfl, hbc, by rw [← hbc]; exact h3⟩)
        · simp only [lineContrib] at hx
          rw [if_pos (by simp [hrole])] at hx
          simp at hx

/-- C10: the exit-code heuristic and the file-change extraction consult
different tags: ExitCode depends only on whether some line's top-level type
field equals "assistant", while a path enters FilesChanged only via a line
whose nested message.role equals "assistant" carrying a tool_use block named
Write or Edit with a non-empty file_path; consequently a transcript whose only
message line has role "assistant" but top-level type "message" parses with
non-empty FilesChanged and ExitCode = 1. -/
theorem C10_exit_code_role_mismatch (ord : List String → List String)
    (f : TranscriptFile) (cs : CompletedSession)
    (hord : ∀ l, List.Perm (ord l) l)
    (h : parseTranscript ord f = some cs) :
    (cs.ExitCode = (if f.lines.any taggedAssistant then 0 else 1)) ∧
    (∀ x ∈ cs.FilesChanged, ∃ e m blocks b inp,
      Line.entry e ∈ f.lines ∧ e.message = some m ∧ m.role = "assistant" ∧
      m.content = some blocks ∧ b ∈ blocks ∧ b.type = "tool_use" ∧
      (b.name = "Write" ∨ b.name = "Edit") ∧ b.input = some inp ∧
      inp.file_path = x ∧ x ≠ "") ∧
    ((parseTranscript (fun l => l) fileC10).map
        (fun cs2 => (cs2.FilesChanged, cs2.ExitCode)) = some (["/w/a.go"], 1)) := by
  obtain ⟨-, -, -, -, hfc, -, -, hec⟩ := parseTranscript_some_elim ord f cs h
  rw [scanAll_hasAssistantMsg] at hec
  refine ⟨hec, ?_, by decide⟩
  intro x hxm
  rw [hfc] at hxm
  have hxm2 : x ∈ (scanAll f.lines).filesChanged :=
    (hord (scanAll f.lines).filesChanged).mem_iff.mp hxm
  obtain ⟨l, hl, hxl⟩ := (scanAll_mem_filesChanged x f.lines).mp hxm2
  obtain ⟨e, m, blocks, b, inp, hle, rest⟩ := lineContrib_sound l x hxl
  exact ⟨e, m, blocks, b, inp, hle ▸ hl, rest⟩

/-- C10 witness: the claim theorem applied to the concrete mismatch
transcript: the parse yields FilesChanged = ["/w/a.go"] with ExitCode = 1. -/
theorem C10_exit_code_role_mismatch_witness :
    ({ SessionID := "s-c10", TranscriptPath := "/tmp/c10.jsonl",
       FilesChanged := ["/w/a.go"], WorkingDir := "/w", DurationMs := 0,
       ExitCode := 1 } : CompletedSession).ExitCode =
      (if fileC10.lines.any taggedAssistant then 0 else 1) ∧
    (parseTranscript (fun l => l) fileC10).map
      (fun cs2 => (cs2.FilesChanged, cs2.ExitCode)) = some (["/w/a.go"], 1) := by
  have h := C10_exit_code_role_mismatch (fun l => l) fileC10
    { SessionID := "s-c10", TranscriptPath := "/tmp/c10.jsonl",
      FilesChanged := ["/w/a.go"], WorkingDir := "/w", DurationMs := 0,
      ExitCode := 1 }
    (fun l => List.Perm.refl l) (by decide)
  exact ⟨h.1, h.2.2⟩
